import Mathlib

/-!
Verification of the content-addressed file repository engine (repo.py, util.py)
against its natural-language specification.

The Python code is shallowly embedded: the in-memory index state of class
`Repo` becomes an explicit record, Python dicts become association lists with
Python dict semantics (update in place preserves position, fresh keys append),
Python values that can be either `str` or numbers become a `PyVal` sum type
with Python equality semantics, filesystem side effects become explicit event
lists, and code that can raise becomes `Except`-valued.  Floating point
modification times are restricted to integral values (an `Int` tagged as
float), which is exact for the integral times used in all statements below.
-/

/-- A Python value as stored in the index maps: a string, an `int`, or a
float (restricted to integral values; `pyStr` prints it Python-style with a
trailing `.0`). -/
inductive PyVal
  | s (v : String)
  | i (v : Int)
  | f (v : Int)
deriving DecidableEq, Repr

/-- Python `==` on `PyVal`: numbers compare numerically across `int`/`float`,
a string never equals a number. -/
def pyEq : PyVal → PyVal → Bool
  | .s a, .s b => a = b
  | .i a, .i b => a = b
  | .f a, .f b => a = b
  | .i a, .f b => a = b
  | .f a, .i b => a = b
  | _, _ => false

/-- Python `str()` of a `PyVal` (as used by the `%s` formatting in
`Repo.commit`). -/
def pyStr : PyVal → String
  | .s v => v
  | .i v => toString v
  | .f v => toString v ++ ".0"

/-- A Python dict with `String` keys, as an insertion-ordered association
list (Python dicts preserve insertion order; keys are unique). -/
abbrev Dict (α : Type) := List (String × α)

/-- Python `dict.get(k)`. -/
def dictGet {α : Type} (m : Dict α) (k : String) : Option α :=
  match m with
  | [] => none
  | (k2, v) :: rest => if k2 = k then some v else dictGet rest k

/-- Python `d[k] = v`: replace in place if the key is present, else append. -/
def dictSet {α : Type} (m : Dict α) (k : String) (v : α) : Dict α :=
  match m with
  | [] => [(k, v)]
  | (k2, v2) :: rest => if k2 = k then (k, v) :: rest else (k2, v2) :: dictSet rest k v

/-- Python `del d[k]` (keys are unique in a dict, so removing the first
occurrence is exact). -/
def dictDel {α : Type} (m : Dict α) (k : String) : Dict α :=
  match m with
  | [] => []
  | (k2, v2) :: rest => if k2 = k then rest else (k2, v2) :: dictDel rest k

/-- `util.SHA256_LEN`. -/
def SHA256_LEN : Nat := 64

/-- A per-digest metadata record (`Meta = namedtuple('Meta', 'size mtime')`). -/
structure Meta where
  size : PyVal
  mtime : PyVal
deriving DecidableEq, Repr

/-- The in-memory state of a loaded `Repo`: `_index` (name to digest),
`_meta` (digest to metadata) and the `_changed` dirty flag. -/
structure RepoState where
  index : Dict String
  meta : Dict Meta
  changed : Bool
deriving DecidableEq, Repr

namespace Repo

/-- Insertion sort on strings, modelling Python `sorted` (lexicographic by
code point). -/
def insertSorted (x : String) : List String → List String
  | [] => [x]
  | y :: ys => if x ≤ y then x :: y :: ys else y :: insertSorted x ys

/-- Python `sorted` on a list of strings. -/
def sortStrings : List String → List String
  | [] => []
  | x :: xs => insertSorted x (sortStrings xs)

/-- `Repo.get_name_digest`. -/
def get_name_digest (st : RepoState) (name : String) : Option String :=
  dictGet st.index name

/-- `Repo.add_data`: record stat metadata for a digest.  `size` is the
integer `st.st_size`, `mtime` the float `st.st_mtime` (integral here). -/
def add_data (st : RepoState) (digest : String) (size mtime : Int) : RepoState :=
  { st with meta := dictSet st.meta digest ⟨.i size, .f mtime⟩, changed := true }

/-- `Repo.find_name_size`: dedup pre-check.  The caller passes the integer
`os.stat().st_size`; the stored size is whatever `PyVal` the meta dict
holds.  A digest mapped by the name but missing from `_meta` raises
`KeyError`. -/
def find_name_size (st : RepoState) (name : String) (size : PyVal) :
    Except String (Option String) :=
  match dictGet st.index name with
  | none => .ok none
  | some digest =>
    match dictGet st.meta digest with
    | none => .error "KeyError"
    | some m => if pyEq m.size size then .ok (some digest) else .ok none

/-- `Repo.get_names`: all names mapped to a digest, sorted. -/
def get_names (st : RepoState) (digest : String) : List String :=
  sortStrings ((st.index.filter (fun p => p.2 = digest)).map Prod.fst)

/-- `Repo.add_name`.  Returns the new state plus the log messages emitted;
the digest-length `assert` raises on violation.  `dryrun` models the
`OPTIONS.dryrun` global consulted by the method. -/
def add_name (dryrun : Bool) (st : RepoState) (digest name : String)
    (overwrite : Bool) : Except String (RepoState × List String) :=
  if digest.length ≠ SHA256_LEN then .error "AssertionError"
  else if dryrun then .ok (st, [])
  else
    match dictGet st.index name with
    | some d2 =>
      if d2 = digest then .ok (st, [])
      else if overwrite then
        .ok ({ st with index := dictSet st.index name digest, changed := true }, [])
      else .ok (st, ["file with name exists, not overwriting"])
    | none =>
      .ok ({ st with index := dictSet st.index name digest, changed := true }, [])

/-- `Repo.remove_name`.  The `assert` that the name maps to the given digest
raises when violated. -/
def remove_name (dryrun : Bool) (st : RepoState) (digest name : String) :
    Except String RepoState :=
  if digest.length ≠ SHA256_LEN then .error "AssertionError"
  else if dryrun then .ok st
  else
    match dictGet st.index name with
    | none => .ok st
    | some d2 =>
      if d2 = digest then
        .ok { st with index := dictDel st.index name, changed := true }
      else .error "AssertionError"

/-- `Repo.remove_meta` (no dry-run guard in the source). -/
def remove_meta (st : RepoState) (digest : String) : RepoState :=
  if (dictGet st.meta digest).isSome then
    { st with meta := dictDel st.meta digest, changed := true }
  else st

/-- `Repo.delete_files`: drop every name of every listed digest; the dirty
flag is set whenever the digest list is non-empty. -/
def delete_files (dryrun : Bool) (st : RepoState) (digests : List String) : RepoState :=
  if digests = [] then st
  else
    let st2 := digests.foldl (fun s digest =>
      (get_names s digest).foldl (fun s2 name =>
        if dryrun then s2 else { s2 with index := dictDel s2.index name }) s) st
    { st2 with changed := true }

/-- `Repo.delete_names`. -/
def delete_names (dryrun : Bool) (st : RepoState) (names : List String) : RepoState :=
  if names = [] then st
  else
    let st2 := names.foldl (fun s name =>
      if (dictGet s.index name).isSome then
        (if dryrun then s else { s with index := dictDel s.index name })
      else s) st
    { st2 with changed := true }

/-- `Repo.set_names` (no dry-run guard in the source). -/
def set_names (st : RepoState) (digest : String) (names : List String) :
    Except String RepoState :=
  if digest.length ≠ SHA256_LEN then .error "AssertionError"
  else
    let st1 := (get_names st digest).foldl
      (fun s name => { s with index := dictDel s.index name }) st
    let st2 := names.foldl
      (fun s name => { s with index := dictSet s.index name digest }) st1
    .ok { st2 with changed := true }

/-- `Repo.set_names_batch`.  The source initialises `old_names = set()` and
then calls `old_names.append(name)`, which raises `AttributeError` on the
first index entry whose digest is in `digests`; only when no entry matches
does the method reach the insertion loop. -/
def set_names_batch (st : RepoState) (files : List (String × String))
    (digests : List String) : Except String RepoState :=
  if ¬ digests.all (fun d => d.length = SHA256_LEN) then .error "AssertionError"
  else if st.index.any (fun p => digests.contains p.2) then
    .error "AttributeError: set object has no attribute append"
  else
    .ok { st with
      index := files.foldl (fun m p => dictSet m p.1 p.2) st.index,
      changed := true }

/-- `Repo.rename_file` (no dry-run guard in the source).  Returns the new
state and whether the rename happened. -/
def rename_file (st : RepoState) (old new : String) : RepoState × Bool :=
  match dictGet st.index old with
  | some digest =>
    ({ st with index := dictSet (dictDel st.index old) new digest, changed := true }, true)
  | none => (st, false)

end Repo

/-- An ASCII hexadecimal digit. -/
def isHexChar (c : Char) : Bool :=
  c.isDigit || ('a' ≤ c && c ≤ 'f') || ('A' ≤ c && c ≤ 'F')

/-- The ASCII whitespace characters recognised by Python `str.strip` and
`str.split`. -/
def pyIsSpace (c : Char) : Bool :=
  c == ' ' || c == '\t' || c == '\n' || c == '\r' || c == '\x0b' || c == '\x0c'

/-- Python `str.strip()` at the character-list level. -/
def stripData (l : List Char) : List Char :=
  ((l.dropWhile pyIsSpace).reverse.dropWhile pyIsSpace).reverse

/-- Python `str.rstrip()` at the character-list level. -/
def rstripData (l : List Char) : List Char :=
  (l.reverse.dropWhile pyIsSpace).reverse

/-- Python `s.strip()`. -/
def pyStrip (s : String) : String := ⟨stripData s.data⟩

/-- Python `s.rstrip()`. -/
def pyRstrip (s : String) : String := ⟨rstripData s.data⟩

/-- Python `s.rpartition(' ')` restricted to the (before, after) pair; with
no space present the "before" part is empty and the whole string is the
"after" part. -/
def rpartitionSpace (s : String) : String × String :=
  let l := s.data
  let tail := l.reverse.takeWhile (fun c => c != ' ')
  if tail.length = l.length then ("", s)
  else (⟨l.take (l.length - tail.length - 1)⟩, ⟨tail.reverse⟩)

/-- Python `s.partition(':')` restricted to the (before, after) pair: split
at the first colon (the caller checks separately that a colon occurs). -/
def partitionColon (s : String) : String × String :=
  let pre := s.data.takeWhile (fun c => c != ':')
  (⟨pre⟩, ⟨s.data.drop (pre.length + 1)⟩)

/-- Python `s.split()` with no separator: split on runs of whitespace,
dropping empty parts. -/
def pySplitWs (s : String) : List String :=
  ((s.data.splitOnP pyIsSpace).filter (fun g => g ≠ [])).map
    (fun g => (⟨g⟩ : String))

/-- Python `int(s)` on ASCII input: optional surrounding whitespace, one
optional sign, then digit groups separated by single underscores. -/
def pyIntOfString (s : String) : Option Int :=
  let l := stripData s.data
  let core := match l with
    | '+' :: rest => rest
    | '-' :: rest => rest
    | _ => l
  let sign : Int := match l with
    | '-' :: _ => -1
    | _ => 1
  let groups := core.splitOn '_'
  if core ≠ [] ∧ groups.all (fun g => g ≠ [] ∧ g.all Char.isDigit) then
    some (sign * ((groups.flatten.foldl (fun n c => n * 10 + (c.toNat - 48)) 0 : Nat) : Int))
  else none

namespace Util

/-- `util.get_xattr_hash`, as a function of the extended-attribute value
(already ASCII-decoded; an absent attribute, i.e. IOError from `getxattr`,
is `none`) and the integer part of the file's current modification time.
A present-but-empty attribute value makes the source evaluate
`None.decode(...)`, an AttributeError. -/
def get_xattr_hash (attr : Option String) (fileMtime : Int) :
    Except String (Option String) :=
  match attr with
  | none => .ok none
  | some d =>
    if d = "" then .error "AttributeError"
    else if ¬ d.data.contains ':' then .ok none
    else
      let mtimeStr := (partitionColon d).1
      let digest := (partitionColon d).2
      if digest.length ≠ SHA256_LEN then .ok none
      else
        match pyIntOfString mtimeStr with
        | none => .ok none
        | some m => if m = fileMtime then .ok (some digest) else .ok none

end Util

namespace Repo

/-- A write event against the on-disk index files, as performed by
`Repo.commit`: the two temporary files written in the repository root
(`meta.txt.tmp`, `index.txt.tmp`, with their full line contents) and the two
renames over `meta.txt` and `index.txt`. -/
inductive Ev
  | writeTmpMeta (lines : List String)
  | writeTmpIndex (lines : List String)
  | renameMeta
  | renameIndex
deriving DecidableEq, Repr

/-- One line of `meta.txt` (`'%s %s %s' % (digest, meta.size, meta.mtime)`). -/
def metaLine (digest : String) (m : Meta) : String :=
  digest ++ " " ++ pyStr m.size ++ " " ++ pyStr m.mtime

/-- The full contents of `meta.txt` as written by `commit`: one line per
digest, sorted by digest. -/
def serializeMeta (meta : Dict Meta) : List String :=
  (sortStrings (meta.map Prod.fst)).map (fun d =>
    match dictGet meta d with
    | some m => metaLine d m
    | none => "")

/-- The full contents of `index.txt` as written by `commit`: one line per
name, sorted by name. -/
def serializeIndex (index : Dict String) : List String :=
  (sortStrings (index.map Prod.fst)).map (fun n =>
    match dictGet index n with
    | some d => n ++ " " ++ d
    | none => "")

/-- `Repo.commit`: returns unchanged under dry-run or when the dirty flag is
clear; raises `SystemExit` on a read-only repo; otherwise writes both
temporary files and renames them over their permanent counterparts, metadata
first, then clears the dirty flag. -/
def commit (dryrun readonly : Bool) (st : RepoState) :
    Except String (RepoState × List Ev) :=
  if dryrun then .ok (st, [])
  else if st.changed = false then .ok (st, [])
  else if readonly then .error "SystemExit: readonly repo"
  else .ok ({ st with changed := false },
    [.writeTmpMeta (serializeMeta st.meta), .writeTmpIndex (serializeIndex st.index),
     .renameMeta, .renameIndex])

/-- `Repo.load` on an existing pair of index files, given their lines.
An index line is right-partitioned on its last space; a meta line is
whitespace-split into exactly three STRING fields (sizes and mtimes are not
converted to numbers on load), else `ValueError`. -/
def load (indexLines metaLines : List String) : Except String RepoState := do
  let index := indexLines.foldl (fun m line =>
    let p := rpartitionSpace (pyRstrip line)
    dictSet m p.1 p.2) []
  let meta ← metaLines.foldlM (fun m line =>
    match pySplitWs line with
    | [digest, size, mtime] =>
        Except.ok (dictSet m digest ⟨PyVal.s size, PyVal.s mtime⟩)
    | _ => Except.error "ValueError") ([] : Dict Meta)
  return { index := index, meta := meta, changed := false }

/-- Python `os.path.join` for the non-empty relative second components used
by this program. -/
def pathJoin (a b : String) : String :=
  if b.data.head? = some '/' then b
  else if a.data = [] then b
  else if a.data.getLast? = some '/' then a ++ b
  else a ++ "/" ++ b

/-- Python slicing `s[:n]`. -/
def strTake (s : String) (n : Nat) : String := ⟨s.data.take n⟩

/-- Python slicing `s[n:]`. -/
def strDrop (s : String) (n : Nat) : String := ⟨s.data.drop n⟩

/-- The string built by `Repo.key`: `'SHA256/%s/%s/%s' % (digest[:3],
digest[3:6], digest[6:])`. -/
def keyStr (digest : String) : String :=
  "SHA256/" ++ strTake digest 3 ++ "/" ++ strTake (strDrop digest 3) 3
    ++ "/" ++ strDrop digest 6

/-- `Repo.key`: shard a digest into `SHA256/<3>/<3>/<rest>`; the length
`assert` raises otherwise. -/
def key (digest : String) : Except String String :=
  if digest.length ≠ SHA256_LEN then .error "AssertionError"
  else .ok (keyStr digest)

/-- `Repo.__init__`: `self.obj_abs = os.path.join(root, 'objects')`. -/
def obj_abs (root : String) : String := pathJoin root "objects"

/-- `Repo.data`: the object-file path of a digest. -/
def data (root digest : String) : Except String String :=
  (key digest).map (fun k => pathJoin (obj_abs root) (k ++ ".d"))

/-- Helper for splitting a character list at a separator: the first group
and the remaining groups. -/
def splitChAux (sep : Char) : List Char → List Char × List (List Char)
  | [] => ([], [])
  | c :: r =>
    let p := splitChAux sep r
    if c = sep then ([], p.1 :: p.2) else (c :: p.1, p.2)

/-- Python `s.split(sep)` for a one-character separator (empty parts are
kept). -/
def splitCh (sep : Char) (l : List Char) : List (List Char) :=
  (splitChAux sep l).1 :: (splitChAux sep l).2

/-- `Repo.filename_digest`: strip the path, drop the trailing two characters
(the `.d` suffix), split on the path separator, require the fourth-from-last
component to be `SHA256` (a negative index out of range raises IndexError),
and join the last three components. -/
def filename_digest (fn : String) : Except String String :=
  let l := stripData fn.data
  let l2 := l.take (l.length - 2)
  let parts := splitCh '/' l2
  if parts.length < 4 then .error "IndexError"
  else if parts.getD (parts.length - 4) [] ≠ "SHA256".data then
    .error "ValueError: not a hash path"
  else .ok ⟨(parts.drop (parts.length - 3)).flatten⟩

/-- A filesystem action performed by the content store or by one of the walk
commands. -/
inductive FsAct
  | setXattr (path : String)
  | ensureParentDir (path : String)
  | unlinkPath (path : String)
  | link (src dst : String)
  | chmodReadonly (path : String)
  | utime (path : String) (mtime : Int)
deriving DecidableEq, Repr

/-- `Repo._link_in` (the public `link_in` only adds logging around it): the
filesystem actions taken, given whether the object file already exists at
its sharded path `keyAbs` (which stands for `self.data(digest)`; the claims
below instantiate it only for well-formed digests, so the length `assert`
never fires).  The whole body is guarded by the dry-run flag. -/
def link_in_acts (dryrun : Bool) (fn keyAbs : String) (objPresent : Bool) :
    List FsAct :=
  if dryrun then []
  else
    [FsAct.setXattr fn] ++
    (if objPresent then [FsAct.unlinkPath keyAbs] else [FsAct.ensureParentDir keyAbs]) ++
    [FsAct.link fn keyAbs, FsAct.chmodReadonly keyAbs]

/-- The successive presence states of the object file at `keyAbs` while a
list of actions executes: the initial state followed by one state after each
action. -/
def objPresence (keyAbs : String) (b : Bool) : List FsAct → List Bool
  | [] => [b]
  | a :: rest =>
    let b2 := match a with
      | .unlinkPath p => if p = keyAbs then false else b
      | .link _ dst => if dst = keyAbs then true else b
      | _ => b
    b :: objPresence keyAbs b2 rest

/-- One iteration of `do_fix_times` for an object file `fn = repo.data(d)`,
given the stored meta mtime and the stat mtime (both integral floats here):
the `os.utime` call runs whenever they differ by at least one second.  The
function never consults the dry-run flag, so the parameter is unused, which
is the point of the claim below. -/
def fix_times_step (dryrun : Bool) (fn : String) (metaMtime stMtime : Int) :
    List FsAct :=
  if 1 ≤ (metaMtime - stMtime).natAbs then [FsAct.utime fn metaMtime] else []

/-- One file of the `known` walk (`do_ls_known`): when the file's cached
digest is known to the repo and `--delete` was given, `os.unlink` runs.  The
function never consults the dry-run flag. -/
def ls_known_step (dryrun : Bool) (fn : String) (known del : Bool) : List FsAct :=
  if known && del then [FsAct.unlinkPath fn] else []

/-- The digests on which `do_scrub` performs its per-digest checks: while
the `--continue` checkpoint has not been seen every digest is skipped; the
checkpoint digest itself resets the flag (the code assigns a falsy value)
and is checked, as is every digest after it.  `none` models both "no
checkpoint" and the reset flag. -/
def scrub_selected : List String → Option String → List String
  | [], _ => []
  | d :: rest, some c => if d = c then d :: scrub_selected rest none
                         else scrub_selected rest (some c)
  | d :: rest, none => d :: scrub_selected rest none

end Repo

/-- A well-formed 64-character digest for concrete instances. -/
def dA : String := ⟨List.replicate 64 'a'⟩

/-- A second well-formed 64-character digest. -/
def dB : String := ⟨List.replicate 64 'b'⟩

/-- A 64-character string of non-hexadecimal characters. -/
def dZ : String := ⟨List.replicate 64 'z'⟩


/-! ## Helper lemmas -/

theorem dictGet_dictSet_self {α : Type} (m : Dict α) (k : String) (v : α) :
    dictGet (dictSet m k v) k = some v := by
  induction m with
  | nil => simp [dictSet, dictGet]
  | cons p rest ih =>
    by_cases h : p.1 = k <;> simp [dictSet, dictGet, h, ih]

theorem dictGet_dictSet_ne {α : Type} (m : Dict α) (k k2 : String) (v : α)
    (h : k2 ≠ k) : dictGet (dictSet m k v) k2 = dictGet m k2 := by
  have hk : ¬ (k = k2) := fun h2 => h h2.symm
  induction m with
  | nil => simp [dictSet, dictGet, hk]
  | cons p rest ih =>
    by_cases hp : p.1 = k
    · subst hp
      simp [dictSet, dictGet, hk]
    · by_cases hq : p.1 = k2 <;> simp [dictSet, dictGet, hp, hq, ih, h]

theorem dictGet_dictDel_ne {α : Type} (m : Dict α) (k k2 : String)
    (h : k2 ≠ k) : dictGet (dictDel m k) k2 = dictGet m k2 := by
  have hk : ¬ (k = k2) := fun h2 => h h2.symm
  induction m with
  | nil => simp [dictDel]
  | cons p rest ih =>
    by_cases hp : p.1 = k
    · subst hp
      simp [dictDel, dictGet, hk]
    · by_cases hq : p.1 = k2 <;> simp [dictDel, dictGet, hp, hq, ih, h]

theorem scrub_selected_none (l : List String) :
    Repo.scrub_selected l none = l := by
  induction l with
  | nil => rfl
  | cons d rest ih => simp [Repo.scrub_selected, ih]

/-! ## Claim theorems -/

namespace Repo

/-- Claim C1: for a loaded repo in normal (non-dry-run, writable) mode,
`commit()` with a clean dirty flag returns immediately with no filesystem
event; with a dirty flag it writes the complete serialized metadata set and
the complete serialized name set each to a temporary file in the repository
root and renames each over its permanent counterpart, the metadata file
first, then clears the flag. -/
theorem commit_spec (st : RepoState) :
    commit false false st =
      (if st.changed then
        Except.ok ({ st with changed := false },
          [Ev.writeTmpMeta (serializeMeta st.meta),
           Ev.writeTmpIndex (serializeIndex st.index),
           Ev.renameMeta, Ev.renameIndex])
      else Except.ok (st, [])) := by
  by_cases h : st.changed <;> simp [commit, h]

/-- Claim C2 (refuted): `set_names_batch` raises `AttributeError` (from
`old_names.append` on a Python `set`) on any input where some existing name
maps to a digest being replaced, instead of performing the removal and
re-insertion. -/
theorem set_names_batch_raises :
    set_names_batch ⟨[("old", dA)], [(dA, ⟨PyVal.i 1, PyVal.f 2⟩)], false⟩
        [("new", dA)] [dA] =
      .error "AttributeError: set object has no attribute append" := by
  rfl

/-- Claim C3 (counterexample): when the object file is already present,
`_link_in` is not a no-op that leaves the existing object in place — it
emits actions, among them an unlink of the existing object, and the object
passes through an absent state. -/
theorem link_in_present_not_noop :
    link_in_acts false "src" "obj" true ≠ [] ∧
    (link_in_acts false "src" "obj" true).contains (FsAct.unlinkPath "obj") = true ∧
    (objPresence "obj" true (link_in_acts false "src" "obj" true)).contains false
      = true := by
  refine ⟨by simp [link_in_acts], by rfl, by rfl⟩

/-- Claim C3 (amended): in normal mode, if the object file is already
present `_link_in` unlinks it and hardlinks the source in its place — so the
object is momentarily absent between the unlink and the link and ends
present; if absent, the parent shard directories are ensured and the source
is linked; in both cases the source is xattr-stamped (before linking; the
stored object shares the inode) and the object is set read-only; under
dry-run nothing happens. -/
theorem link_in_acts_spec (fn keyAbs : String) :
    link_in_acts false fn keyAbs true =
      [FsAct.setXattr fn, FsAct.unlinkPath keyAbs, FsAct.link fn keyAbs,
       FsAct.chmodReadonly keyAbs] ∧
    link_in_acts false fn keyAbs false =
      [FsAct.setXattr fn, FsAct.ensureParentDir keyAbs, FsAct.link fn keyAbs,
       FsAct.chmodReadonly keyAbs] ∧
    link_in_acts true fn keyAbs true = [] ∧
    link_in_acts true fn keyAbs false = [] ∧
    objPresence keyAbs true (link_in_acts false fn keyAbs true) =
      [true, true, false, true, true] ∧
    objPresence keyAbs false (link_in_acts false fn keyAbs false) =
      [false, false, false, true, true] := by
  refine ⟨rfl, rfl, rfl, rfl, ?_, ?_⟩ <;> simp [link_in_acts, objPresence]

/-- Claim C4 (refuted by the code): with the dry-run flag set, `do_fix_times`
still calls `os.utime` on the stored object when the recorded and actual
mtimes differ, and `known --delete` still unlinks a known file: neither
mutation point consults the dry-run guard. -/
theorem dryrun_guard_missing :
    fix_times_step true "obj" 100 200 = [FsAct.utime "obj" 100] ∧
    ls_known_step true "f" true true = [FsAct.unlinkPath "f"] :=
  ⟨rfl, rfl⟩

/-- Claim C5: `add_name` in normal mode maps an unmapped name, is a no-op
for a name already mapped to the same digest, and on a conflicting mapping
either overwrites (when requested) or leaves the index unchanged and reports
the conflict; in every case the metadata map and every other name entry are
untouched. -/
theorem add_name_spec (st : RepoState) (digest name : String) (ow : Bool)
    (hlen : digest.length = SHA256_LEN) :
    (dictGet st.index name = none →
      add_name false st digest name ow =
        .ok ({ st with index := dictSet st.index name digest, changed := true }, [])) ∧
    (dictGet st.index name = some digest →
      add_name false st digest name ow = .ok (st, [])) ∧
    (∀ d2, dictGet st.index name = some d2 → d2 ≠ digest →
      (ow = true →
        add_name false st digest name ow =
          .ok ({ st with index := dictSet st.index name digest, changed := true }, [])) ∧
      (ow = false →
        add_name false st digest name ow =
          .ok (st, ["file with name exists, not overwriting"]))) ∧
    (∀ st2 msgs, add_name false st digest name ow = .ok (st2, msgs) →
      st2.meta = st.meta ∧
      ∀ n2, n2 ≠ name → dictGet st2.index n2 = dictGet st.index n2) := by
  have hni : ¬ digest.length ≠ SHA256_LEN := by simp [hlen]
  refine ⟨?_, ?_, ?_, ?_⟩
  · intro h; simp [add_name, hni, h]
  · intro h; simp [add_name, hni, h]
  · intro d2 h hne
    constructor <;> intro how <;> subst how <;> simp [add_name, hni, h, hne]
  · intro st2 msgs h
    rcases hd : dictGet st.index name with _ | d2
    · have he : add_name false st digest name ow =
          .ok ({ st with index := dictSet st.index name digest, changed := true }, []) := by
        simp [add_name, hni, hd]
      rw [he] at h
      injection h with h3
      injection h3 with h4 h5
      rw [← h4]
      exact ⟨rfl, fun n2 hn2 => dictGet_dictSet_ne st.index name n2 digest hn2⟩
    · by_cases hsame : d2 = digest
      · subst hsame
        have he : add_name false st d2 name ow = .ok (st, []) := by
          simp [add_name, hni, hd]
        rw [he] at h
        injection h with h3
        injection h3 with h4 h5
        rw [← h4]
        exact ⟨rfl, fun n2 _ => rfl⟩
      · by_cases how : ow
        · subst how
          have he : add_name false st digest name true =
              .ok ({ st with index := dictSet st.index name digest, changed := true }, []) := by
            simp [add_name, hni, hd, hsame]
          rw [he] at h
          injection h with h3
          injection h3 with h4 h5
          rw [← h4]
          exact ⟨rfl, fun n2 hn2 => dictGet_dictSet_ne st.index name n2 digest hn2⟩
        · simp only [Bool.not_eq_true] at how
          subst how
          have he : add_name false st digest name false =
              .ok (st, ["file with name exists, not overwriting"]) := by
            simp [add_name, hni, hd, hsame]
          rw [he] at h
          injection h with h3
          injection h3 with h4 h5
          rw [← h4]
          exact ⟨rfl, fun n2 _ => rfl⟩

/-- Witness for C5 at concrete inputs: a fresh name is mapped, and a
conflicting add without overwrite leaves the mapping and reports. -/
theorem add_name_spec_witness :
    add_name false ⟨[], [], false⟩ dA "a" false =
      .ok (⟨[("a", dA)], [], true⟩, []) ∧
    add_name false ⟨[("a", dA)], [], false⟩ dB "a" false =
      .ok (⟨[("a", dA)], [], false⟩, ["file with name exists, not overwriting"]) := by
  constructor
  · exact (add_name_spec ⟨[], [], false⟩ dA "a" false (by decide)).1 rfl
  · exact ((add_name_spec ⟨[("a", dA)], [], false⟩ dB "a" false
      (by decide)).2.2.1 dA rfl (by decide)).2 rfl

/-- Claim C7 (refuted by the code): the dedup pre-check compares the stored
size with Python `==`; in a fresh session the stored size is the `int` from
`os.stat` and the check fires, but after a commit/load round trip the stored
size is the STRING read back from `meta.txt`, which never equals the integer
size passed by the callers, so `find_name_size` returns nothing even though
the stored entry records the very same size. -/
theorem find_name_size_persistence_bug :
    find_name_size (add_data ⟨[("a", dA)], [], false⟩ dA 5 100) "a" (PyVal.i 5)
      = .ok (some dA) ∧
    (load (serializeIndex [("a", dA)])
        (serializeMeta [(dA, ⟨PyVal.i 5, PyVal.f 100⟩)])).map
      (fun st => find_name_size st "a" (PyVal.i 5)) = .ok (.ok none) ∧
    (load (serializeIndex [("a", dA)])
        (serializeMeta [(dA, ⟨PyVal.i 5, PyVal.f 100⟩)])).map
      (fun st => dictGet st.meta dA)
      = .ok (some ⟨PyVal.s "5", PyVal.s "100.0"⟩) := by
  refine ⟨rfl, rfl, rfl⟩

/-- Claim C8: scrub with a checkpoint digest that occurs in the metadata
iteration order skips exactly the digests before its first occurrence and
performs the per-digest checks on the checkpoint and everything after it. -/
theorem scrub_resume_spec (pre post : List String) (c : String)
    (h : c ∉ pre) :
    scrub_selected (pre ++ c :: post) (some c) = c :: post := by
  induction pre with
  | nil => simp [scrub_selected, scrub_selected_none]
  | cons d rest ih =>
    have hdc : d ≠ c := fun he => h (he ▸ List.mem_cons_self d rest)
    have hdc2 : ¬ (d = c) := hdc
    have hrest : c ∉ rest := fun hm => h (List.mem_cons_of_mem d hm)
    simp [scrub_selected, hdc2, ih hrest]

/-- Witness for C8 at a concrete iteration order and checkpoint. -/
theorem scrub_resume_spec_witness :
    scrub_selected [dA, dB, dZ] (some dB) = [dB, dZ] :=
  scrub_resume_spec [dA] [dZ] dB (by decide)

/-- Claim C10: every index- or metadata-mutating operation either leaves the
loaded state exactly as it was or sets the dirty flag, so a clean flag at
`commit()` time implies the in-memory state is unmodified and the no-op fast
path never drops a real modification. -/
theorem changed_flag_sound :
    (∀ st digest size mtime, (add_data st digest size mtime).changed = true) ∧
    (∀ dryrun st digest name ow,
      match add_name dryrun st digest name ow with
      | .ok p => p.1 = st ∨ p.1.changed = true
      | .error _ => True) ∧
    (∀ dryrun st digest name,
      match remove_name dryrun st digest name with
      | .ok st2 => st2 = st ∨ st2.changed = true
      | .error _ => True) ∧
    (∀ st digest, remove_meta st digest = st ∨ (remove_meta st digest).changed = true) ∧
    (∀ st digest names,
      match set_names st digest names with
      | .ok st2 => st2.changed = true
      | .error _ => True) ∧
    (∀ st files digests,
      match set_names_batch st files digests with
      | .ok st2 => st2.changed = true
      | .error _ => True) ∧
    (∀ dryrun st digests,
      delete_files dryrun st digests = st ∨
        (delete_files dryrun st digests).changed = true) ∧
    (∀ dryrun st names,
      delete_names dryrun st names = st ∨
        (delete_names dryrun st names).changed = true) ∧
    (∀ st old new, (rename_file st old new).1 = st ∨
        (rename_file st old new).1.changed = true) := by
  refine ⟨?_, ?_, ?_, ?_, ?_, ?_, ?_, ?_, ?_⟩
  · intro st digest size mtime; rfl
  · intro dryrun st digest name ow
    by_cases h1 : digest.length ≠ SHA256_LEN
    · simp [add_name, h1]
    · by_cases h2 : dryrun
      · simp [add_name, h1, h2]
      · rcases hd : dictGet st.index name with _ | d2
        · simp [add_name, h1, h2, hd]
        · by_cases h3 : d2 = digest
          · simp [add_name, h1, h2, hd, h3]
          · by_cases h4 : ow <;> simp [add_name, h1, h2, hd, h3, h4]
  · intro dryrun st digest name
    by_cases h1 : digest.length ≠ SHA256_LEN
    · simp [remove_name, h1]
    · by_cases h2 : dryrun
      · simp [remove_name, h1, h2]
      · rcases hd : dictGet st.index name with _ | d2
        · simp [remove_name, h1, h2, hd]
        · by_cases h3 : d2 = digest <;> simp [remove_name, h1, h2, hd, h3]
  · intro st digest
    unfold remove_meta
    split
    · right; rfl
    · left; rfl
  · intro st digest names
    by_cases h1 : digest.length ≠ SHA256_LEN <;> simp [set_names, h1]
  · intro st files digests
    unfold set_names_batch
    by_cases h1 : ¬ (digests.all fun d => d.length = SHA256_LEN) = true
    · rw [if_pos h1]
      exact trivial
    · rw [if_neg h1]
      by_cases h2 : (List.any st.index fun p => digests.contains p.2) = true
      · rw [if_pos h2]
        exact trivial
      · rw [if_neg h2]
  · intro dryrun st digests
    unfold delete_files
    split
    · left; rfl
    · right; rfl
  · intro dryrun st names
    unfold delete_names
    split
    · left; rfl
    · right; rfl
  · intro st old new
    unfold rename_file
    split
    · right; rfl
    · left; rfl

end Repo


/-- Claim C6 (counterexample): the digest part of the extended attribute is
only checked for LENGTH 64, not for being hexadecimal — an attribute whose
64-character digest part is all `z`, with a matching mtime, is returned. -/
theorem get_xattr_hash_non_hex :
    Util.get_xattr_hash (some ("5:" ++ dZ)) 5 = .ok (some dZ) ∧
    dZ.data.all isHexChar = false :=
  ⟨rfl, rfl⟩

/-- Claim C6 (amended): `get_xattr_hash` returns a digest exactly when a
non-empty attribute containing a colon is present, whose part after the
first colon is 64 characters long (hex-ness is not validated) and whose part
before the first colon parses as a Python integer equal to the file's
integer-second modification time; with an absent attribute, no colon, a
wrong digest-part length, a non-integer mtime part, or an mtime mismatch it
returns nothing; a present-but-empty attribute raises instead of returning
nothing. -/
theorem get_xattr_hash_spec (attr : Option String) (fm : Int) :
    (∀ dg, Util.get_xattr_hash attr fm = .ok (some dg) ↔
      (∃ s, attr = some s ∧ s ≠ "" ∧ s.data.contains ':' = true ∧
        (partitionColon s).2 = dg ∧ dg.length = SHA256_LEN ∧
        pyIntOfString (partitionColon s).1 = some fm)) ∧
    (Util.get_xattr_hash attr fm = .error "AttributeError" ↔ attr = some "") := by
  cases attr with
  | none => simp [Util.get_xattr_hash]
  | some s =>
    by_cases h0 : s = ""
    · subst h0
      simp [Util.get_xattr_hash]
    · by_cases h1 : ':' ∈ s.data
      · by_cases h2 : (partitionColon s).2.length = SHA256_LEN
        · cases hp : pyIntOfString (partitionColon s).1 with
          | none =>
            have he : Util.get_xattr_hash (some s) fm = .ok none := by
              simp [Util.get_xattr_hash, h0, h1, h2, hp]
            constructor
            · intro dg
              rw [he]
              constructor
              · intro hl
                exact absurd hl (by simp)
              · rintro ⟨s1, hs1, _, _, _, _, hpi⟩
                injection hs1 with hs1e
                subst hs1e
                rw [hp] at hpi
                exact absurd hpi (by simp)
            · rw [he]
              simp [h0]
          | some m =>
            by_cases hm : m = fm
            · subst hm
              have he : Util.get_xattr_hash (some s) m =
                  .ok (some (partitionColon s).2) := by
                simp [Util.get_xattr_hash, h0, h1, h2, hp]
              constructor
              · intro dg
                rw [he]
                constructor
                · intro hl
                  injection hl with he2
                  injection he2 with he3
                  refine ⟨s, rfl, h0, by simpa using h1, he3, ?_, hp⟩
                  rw [← he3]
                  exact h2
                · rintro ⟨s1, hs1, _, _, hdg, _, _⟩
                  injection hs1 with hs1e
                  subst hs1e
                  rw [hdg]
              · rw [he]
                simp [h0]
            · have he : Util.get_xattr_hash (some s) fm = .ok none := by
                simp [Util.get_xattr_hash, h0, h1, h2, hp, hm]
              constructor
              · intro dg
                rw [he]
                constructor
                · intro hl
                  exact absurd hl (by simp)
                · rintro ⟨s1, hs1, _, _, _, _, hpi⟩
                  injection hs1 with hs1e
                  subst hs1e
                  rw [hp] at hpi
                  injection hpi with hme
                  exact absurd hme hm
              · rw [he]
                simp [h0]
        · have he : Util.get_xattr_hash (some s) fm = .ok none := by
            simp [Util.get_xattr_hash, h0, h1, h2]
          constructor
          · intro dg
            rw [he]
            constructor
            · intro hl
              exact absurd hl (by simp)
            · rintro ⟨s1, hs1, _, _, hdg, hlen, _⟩
              injection hs1 with hs1e
              subst hs1e
              rw [← hdg] at hlen
              exact absurd hlen h2
          · rw [he]
            simp [h0]
      · have he : Util.get_xattr_hash (some s) fm = .ok none := by
          simp [Util.get_xattr_hash, h0, h1]
        constructor
        · intro dg
          rw [he]
          constructor
          · intro hl
            exact absurd hl (by simp)
          · rintro ⟨s1, hs1, _, hc, _, _, _⟩
            injection hs1 with hs1e
            subst hs1e
            exact absurd (by simpa using hc) h1
        · rw [he]
          simp [h0]

/-! ## Path model lemmas (claim C9) -/

theorem str_data_append (a b : String) : (a ++ b).data = a.data ++ b.data := rfl

namespace Repo

theorem splitChAux_append_sep (sep : Char) (xs ys : List Char) :
    splitChAux sep (xs ++ sep :: ys) =
      ((splitChAux sep xs).1, (splitChAux sep xs).2 ++ splitCh sep ys) := by
  induction xs with
  | nil => simp [splitChAux, splitCh]
  | cons c r ih =>
    by_cases h : c = sep <;> simp [splitChAux, splitCh, h, ih]

theorem splitCh_append_sep (sep : Char) (xs ys : List Char) :
    splitCh sep (xs ++ sep :: ys) = splitCh sep xs ++ splitCh sep ys := by
  simp [splitCh, splitChAux_append_sep]

theorem splitCh_no_sep (sep : Char) (l : List Char)
    (h : ∀ c ∈ l, c ≠ sep) : splitCh sep l = [l] := by
  have haux : ∀ (m : List Char), (∀ c ∈ m, c ≠ sep) → splitChAux sep m = (m, []) := by
    intro m
    induction m with
    | nil => intro _; rfl
    | cons c r ih =>
      intro hm
      have hc : ¬ (c = sep) := hm c (List.mem_cons_self c r)
      simp [splitChAux, hc, ih (fun x hx => hm x (List.mem_cons_of_mem c hx))]
  simp [splitCh, haux l h]

theorem dropWhile_append_ne_nil (p : Char → Bool) (xs ys : List Char)
    (h : xs.dropWhile p ≠ []) :
    (xs ++ ys).dropWhile p = xs.dropWhile p ++ ys := by
  induction xs with
  | nil => simp at h
  | cons c r ih =>
    by_cases hc : p c
    · have h2 : r.dropWhile p ≠ [] := by
        simpa [List.dropWhile_cons, hc] using h
      simp [List.cons_append, List.dropWhile_cons, hc, ih h2]
    · simp [List.cons_append, List.dropWhile_cons, hc]

theorem stripData_append (A R : List Char)
    (hA : A.dropWhile pyIsSpace ≠ [])
    (R0 : List Char) (c : Char) (hR : R = R0 ++ [c]) (hc : pyIsSpace c = false) :
    stripData (A ++ R) = A.dropWhile pyIsSpace ++ R := by
  subst hR
  unfold stripData
  rw [dropWhile_append_ne_nil pyIsSpace A (R0 ++ [c]) hA]
  have e1 : (A.dropWhile pyIsSpace ++ (R0 ++ [c])).reverse
      = c :: (R0.reverse ++ (A.dropWhile pyIsSpace).reverse) := by
    simp
  rw [e1, List.dropWhile_cons]
  simp [hc]

theorem getLast_append_right {α : Type} (xs ys : List α) (h : ys ≠ []) :
    (xs ++ ys).getLast? = ys.getLast? := by
  rw [← List.head?_reverse, ← List.head?_reverse, List.reverse_append]
  cases hys : ys.reverse with
  | nil => exact absurd (by simpa using hys) h
  | cons a t => rfl

theorem mem_of_getLast_some {α : Type} :
    ∀ (l : List α) (a : α), l.getLast? = some a → a ∈ l
  | [], a, h => by simp at h
  | [x], a, h => by
      simp [List.getLast?] at h
      simp [h]
  | x :: y :: r, a, h => by
      rw [List.getLast?_cons_cons] at h
      exact List.mem_cons_of_mem x (mem_of_getLast_some (y :: r) a h)

theorem head_append_left {α : Type} (l1 l2 : List α) (h : l1 ≠ []) :
    (l1 ++ l2).head? = l1.head? := by
  cases l1 with
  | nil => exact absurd rfl h
  | cons a t => rfl

theorem take_append_self {α : Type} (M N : List α) : (M ++ N).take M.length = M := by
  induction M with
  | nil => rfl
  | cons c r ih => simp [List.take_succ_cons, ih]

theorem drop_append_self {α : Type} (M N : List α) : (M ++ N).drop M.length = N := by
  induction M with
  | nil => rfl
  | cons c r ih => simp [List.drop_succ_cons, ih]

theorem getD_append_at {α : Type} (G : List α) (a : α) (rest : List α) (d : α) :
    (G ++ a :: rest).getD G.length d = a := by
  induction G with
  | nil => rfl
  | cons c r ih =>
    rw [List.cons_append, List.length_cons, List.getD_cons_succ]
    exact ih

theorem hexChar_ne_slash (c : Char) (h : isHexChar c = true) : c ≠ '/' := by
  intro he
  subst he
  exact absurd h (by decide)

theorem obj_abs_getLast (root : String) :
    (obj_abs root).data.getLast? = some 's' := by
  unfold obj_abs pathJoin
  have hhead : ¬ (("objects" : String).data.head? = some '/') := by decide
  rw [if_neg hhead]
  by_cases h2 : root.data = []
  · rw [if_pos h2]
    decide
  · rw [if_neg h2]
    by_cases h3 : root.data.getLast? = some '/'
    · rw [if_pos h3, str_data_append]
      rw [getLast_append_right root.data ("objects" : String).data (by decide)]
      decide
    · rw [if_neg h3, str_data_append, str_data_append, List.append_assoc]
      rw [getLast_append_right root.data _ (by decide)]
      rw [getLast_append_right ("/" : String).data ("objects" : String).data (by decide)]
      decide

theorem filename_digest_zeta (fn : String) :
    filename_digest fn =
      (if (splitCh '/' ((stripData fn.data).take ((stripData fn.data).length - 2))).length < 4
       then .error "IndexError"
       else if (splitCh '/' ((stripData fn.data).take ((stripData fn.data).length - 2))).getD
              ((splitCh '/' ((stripData fn.data).take ((stripData fn.data).length - 2))).length - 4) []
              ≠ "SHA256".data
       then .error "ValueError: not a hash path"
       else .ok ⟨((splitCh '/' ((stripData fn.data).take ((stripData fn.data).length - 2))).drop
              ((splitCh '/' ((stripData fn.data).take ((stripData fn.data).length - 2))).length - 3)).flatten⟩) :=
  rfl

end Repo

namespace Repo

set_option maxHeartbeats 1600000 in
/-- Claim C9: for every 64-character hexadecimal digest d, `Repo.data` is
the path `<root>/objects/SHA256/d[0:3]/d[3:6]/d[6:64].d` and
`Repo.filename_digest` applied to that path returns exactly d, so the
digest-to-object-path mapping is deterministic and invertible. -/
theorem data_roundtrip (root digest : String)
    (hlen : digest.length = 64)
    (hhex : ∀ c ∈ digest.data, isHexChar c = true) :
    data root digest =
      .ok (obj_abs root ++ "/" ++
        ("SHA256/" ++ strTake digest 3 ++ "/" ++ strTake (strDrop digest 3) 3
          ++ "/" ++ strDrop digest 6 ++ ".d")) ∧
    (data root digest).bind filename_digest = .ok digest := by
  have hni : ¬ (digest.length ≠ SHA256_LEN) := by simp [SHA256_LEN, hlen]
  have hK : key digest = .ok (keyStr digest) := by
    unfold key
    rw [if_neg hni]
  have hOlast : (obj_abs root).data.getLast? = some 's' := obj_abs_getLast root
  have hOne : ¬ ((obj_abs root).data = []) := by
    intro he
    rw [he] at hOlast
    exact absurd hOlast (by simp)
  have hOnoslash : ¬ ((obj_abs root).data.getLast? = some '/') := by
    rw [hOlast]
    decide
  have hKdHead : ((keyStr digest) ++ ".d").data.head? = some 'S' := by
    unfold keyStr
    simp only [str_data_append, List.append_assoc]
    rw [head_append_left ("SHA256/" : String).data _ (by decide)]
    decide
  have hJoin : pathJoin (obj_abs root) (keyStr digest ++ ".d")
      = obj_abs root ++ "/" ++ (keyStr digest ++ ".d") := by
    unfold pathJoin
    rw [if_neg (by rw [hKdHead]; decide), if_neg hOne, if_neg hOnoslash]
  have hdata : data root digest = .ok (obj_abs root ++ "/" ++ (keyStr digest ++ ".d")) := by
    unfold data
    rw [hK]
    show Except.ok (pathJoin (obj_abs root) (keyStr digest ++ ".d")) = _
    rw [hJoin]
  constructor
  · exact hdata
  · rw [hdata]
    show filename_digest (obj_abs root ++ "/" ++ (keyStr digest ++ ".d")) = .ok digest
    have hPdata : (obj_abs root ++ "/" ++ (keyStr digest ++ ".d")).data
        = (obj_abs root).data ++ ('/' :: ((keyStr digest).data ++ ['.', 'd'])) := by
      simp only [str_data_append, List.append_assoc]
      rfl
    have hA2 : (obj_abs root).data.dropWhile pyIsSpace ≠ [] := by
      intro he
      rw [List.dropWhile_eq_nil_iff] at he
      have hs : 's' ∈ (obj_abs root).data := mem_of_getLast_some _ _ hOlast
      exact absurd (he 's' hs) (by decide)
    have hstrip : stripData ((obj_abs root ++ "/" ++ (keyStr digest ++ ".d")).data)
        = ((obj_abs root).data.dropWhile pyIsSpace)
          ++ ('/' :: ((keyStr digest).data ++ ['.', 'd'])) := by
      rw [hPdata]
      exact stripData_append _ _ hA2 ('/' :: ((keyStr digest).data ++ ['.']))
        'd' (by simp) (by decide)
    have hspine : ((obj_abs root).data.dropWhile pyIsSpace)
          ++ ('/' :: ((keyStr digest).data ++ ['.', 'd']))
        = (((obj_abs root).data.dropWhile pyIsSpace)
          ++ ('/' :: (keyStr digest).data)) ++ ['.', 'd'] := by
      simp
    have htakeLen : ((((obj_abs root).data.dropWhile pyIsSpace)
          ++ ('/' :: (keyStr digest).data)) ++ ['.', 'd']).length - 2
        = (((obj_abs root).data.dropWhile pyIsSpace)
          ++ ('/' :: (keyStr digest).data)).length := by
      simp only [List.length_append, List.length_cons, List.length_nil]
      omega
    have htake : (stripData ((obj_abs root ++ "/" ++ (keyStr digest ++ ".d")).data)).take
          ((stripData ((obj_abs root ++ "/" ++ (keyStr digest ++ ".d")).data)).length - 2)
        = ((obj_abs root).data.dropWhile pyIsSpace) ++ ('/' :: (keyStr digest).data) := by
      rw [hstrip, hspine, htakeLen, take_append_self]
    have hKD : (keyStr digest).data
        = "SHA256".data ++ '/' :: (digest.data.take 3 ++ '/' ::
            ((digest.data.drop 3).take 3 ++ '/' :: digest.data.drop 6)) := by
      unfold keyStr
      simp only [str_data_append, List.append_assoc]
      rfl
    have ht1 : ∀ c ∈ digest.data.take 3, c ≠ '/' := fun c hc =>
      hexChar_ne_slash c (hhex c (List.mem_of_mem_take hc))
    have ht2 : ∀ c ∈ (digest.data.drop 3).take 3, c ≠ '/' := fun c hc =>
      hexChar_ne_slash c (hhex c (List.mem_of_mem_drop (List.mem_of_mem_take hc)))
    have ht3 : ∀ c ∈ digest.data.drop 6, c ≠ '/' := fun c hc =>
      hexChar_ne_slash c (hhex c (List.mem_of_mem_drop hc))
    have hs256 : ∀ c ∈ ("SHA256" : String).data, c ≠ '/' := by decide
    have hsplit : splitCh '/' (((obj_abs root).data.dropWhile pyIsSpace)
          ++ ('/' :: (keyStr digest).data))
        = splitCh '/' ((obj_abs root).data.dropWhile pyIsSpace)
          ++ ["SHA256".data, digest.data.take 3, (digest.data.drop 3).take 3,
              digest.data.drop 6] := by
      rw [splitCh_append_sep]
      congr 1
      rw [hKD, splitCh_append_sep, splitCh_no_sep '/' _ hs256]
      rw [splitCh_append_sep, splitCh_no_sep '/' _ ht1]
      rw [splitCh_append_sep, splitCh_no_sep '/' _ ht2, splitCh_no_sep '/' _ ht3]
      rfl
    obtain ⟨g, gs, hG⟩ : ∃ g gs,
        splitCh '/' ((obj_abs root).data.dropWhile pyIsSpace) = g :: gs :=
      ⟨_, _, rfl⟩
    have hc1 : ¬ (((g :: gs) ++ ["SHA256".data, digest.data.take 3,
          (digest.data.drop 3).take 3, digest.data.drop 6]).length < 4) := by
      simp only [List.length_append, List.length_cons, List.length_nil]
      omega
    have hidx : ((g :: gs) ++ ["SHA256".data, digest.data.take 3,
          (digest.data.drop 3).take 3, digest.data.drop 6]).length - 4
        = (g :: gs).length := by
      simp only [List.length_append, List.length_cons, List.length_nil]
      omega
    have hgetD : ((g :: gs) ++ ["SHA256".data, digest.data.take 3,
          (digest.data.drop 3).take 3, digest.data.drop 6]).getD
          (((g :: gs) ++ ["SHA256".data, digest.data.take 3,
            (digest.data.drop 3).take 3, digest.data.drop 6]).length - 4) []
        = "SHA256".data := by
      rw [hidx]
      exact getD_append_at (g :: gs) ("SHA256".data) _ []
    have hc2 : ¬ (((g :: gs) ++ ["SHA256".data, digest.data.take 3,
          (digest.data.drop 3).take 3, digest.data.drop 6]).getD
          (((g :: gs) ++ ["SHA256".data, digest.data.take 3,
            (digest.data.drop 3).take 3, digest.data.drop 6]).length - 4) []
          ≠ "SHA256".data) := by
      rw [hgetD]
      simp
    have hre : (g :: gs) ++ ["SHA256".data, digest.data.take 3,
          (digest.data.drop 3).take 3, digest.data.drop 6]
        = ((g :: gs) ++ ["SHA256".data]) ++ [digest.data.take 3,
            (digest.data.drop 3).take 3, digest.data.drop 6] := by
      simp
    have hdropIdx : ((((g :: gs) ++ ["SHA256".data])) ++ [digest.data.take 3,
          (digest.data.drop 3).take 3, digest.data.drop 6]).length - 3
        = ((g :: gs) ++ ["SHA256".data]).length := by
      simp only [List.length_append, List.length_cons, List.length_nil]
      omega
    have hjoin : digest.data.take 3 ++ ((digest.data.drop 3).take 3
          ++ (digest.data.drop 6 ++ [])) = digest.data := by
      rw [List.append_nil]
      have h63 : (digest.data.drop 3).drop 3 = digest.data.drop 6 := by
        rw [List.drop_drop]
      rw [← h63, List.take_append_drop, List.take_append_drop]
    rw [filename_digest_zeta, htake, hsplit, hG]
    rw [if_neg hc1, if_neg hc2]
    rw [hre, hdropIdx, drop_append_self]
    show Except.ok ⟨digest.data.take 3 ++ ((digest.data.drop 3).take 3
        ++ (digest.data.drop 6 ++ []))⟩ = Except.ok digest
    rw [hjoin]

/-- Witness for C9 at a concrete root and digest. -/
theorem data_roundtrip_witness :
    (data "r" dA).bind filename_digest = .ok dA :=
  (data_roundtrip "r" dA (by decide) (by decide)).2

end Repo
